import Mathlib

/-!
# GTM form tracker (`src/gtm-form-tracker.js`)

A shallow embedding of the tracker script and the properties of it that the
specification states.

Modelling conventions.

* JavaScript values that the script handles are the constructors of `Prim`
  (primitives, arrays of strings as returned by `.val()` on a multiple select,
  and the members that a plain object inherits from `Object.prototype`) and of
  `JSVal` (a primitive or a plain object whose properties are primitives).
* Numbers are natural numbers: the only arithmetic in the script is `+ 1` on a
  counter that starts at `0`.
* A plain object `{}` is the list of its own properties, in insertion order,
  together with the members inherited from `Object.prototype`; reading a
  property consults the own properties first and the prototype next, exactly
  as `obj[key]` does.
* `window.location.pathname` and the clock read by `new Date()` are explicit
  arguments; the pathname does not change while the page lives.
* A DOM node is given by the data the script reads from it.  A listener keeps
  the form it was bound with; the id attribute of a form does not change after
  the form has been seen.
* A handler returns the `sendEvent` calls it makes, in order, next to the new
  state; `sendEvent` itself is modelled on its own, since it reads and writes
  nothing but `window.dataLayer` and the console.  The handlers are modelled on
  a page where each of these calls returns; `sendEvent` is modelled with the
  exception it lets through when `window.dataLayer.push` throws.
* `window.dataLayer`, when it is an array, is given by its slots, by whether
  it is extensible and has a writable `length`, and by what its `push`
  resolves to: the built-in method, a value that is not a function, or a
  replacement, given by what it does to the slots and whether it throws.
* A string is a Lean `String`; `location.pathname` is percent-encoded ASCII, so
  code points and UTF-16 code units coincide on it.
-/

namespace GtmFormTracker

/-! ## JavaScript values -/

/-- The values that flow through counters, field values and event payloads. -/
inductive Prim where
  | undefined
  | null
  | nan
  | num (n : Nat)
  | str (s : String)
  | arr (items : List String)
  | builtin (name : String)
  deriving DecidableEq, Repr

/-- A value of an event record: a primitive, a plain object of primitives, or
any other object (a function, a nested object, an `arguments` object), which
the script holds by reference and never inspects. -/
inductive JSVal where
  | prim (p : Prim)
  | obj (props : List (String × Prim))
  | ref (id : Nat)
  deriving DecidableEq, Repr

/-- The property names every plain object inherits from `Object.prototype`. -/
def objectPrototypeKeys : List String :=
  ["constructor", "__defineGetter__", "__defineSetter__", "hasOwnProperty",
   "__lookupGetter__", "__lookupSetter__", "isPrototypeOf",
   "propertyIsEnumerable", "toString", "valueOf", "__proto__", "toLocaleString"]

/-- JavaScript truthiness (`ToBoolean`). -/
def truthy : Prim → Bool
  | .undefined => false
  | .null => false
  | .nan => false
  | .num n => n != 0
  | .str s => s != ""
  | .arr _ => true
  | .builtin _ => true

/-- The expression `a || b`. -/
def jsOr (a b : Prim) : Prim := if truthy a then a else b

/-- `ToString` of an inherited member of `Object.prototype`: the prototype
object itself for `__proto__`, a native function otherwise.  The exact text of
a native function is engine-specific; the V8 rendering is used. -/
def builtinToString (name : String) : String :=
  if name = "__proto__" then "[object Object]"
  else "function " ++ (if name = "constructor" then "Object" else name) ++ "() { [native code] }"

/-- The expression `a + 1`: numeric addition when `a` converts to a number
under `ToPrimitive`, string concatenation with `"1"` otherwise. -/
def jsAddOne : Prim → Prim
  | .undefined => .nan
  | .null => .num 1
  | .nan => .nan
  | .num n => .num (n + 1)
  | .str s => .str (s ++ "1")
  | .arr items => .str (",".intercalate items ++ "1")
  | .builtin name => .str (builtinToString name ++ "1")

/-! ## Plain objects -/

/-- Own properties of a plain object, in insertion order. -/
abbrev Props (α : Type) := List (String × α)

/-- Own-property lookup. -/
def getOwn {α : Type} : Props α → String → Option α
  | [], _ => none
  | (k, v) :: rest, key => if k = key then some v else getOwn rest key

/-- Own-property definition (`CreateDataProperty`): replaces the value of an
existing key in place, appends a new key. -/
def setOwn {α : Type} : Props α → String → α → Props α
  | [], key, v => [(key, v)]
  | (k, w) :: rest, key, v =>
    if k = key then (k, v) :: rest else (k, w) :: setOwn rest key v

/-- The own enumerable keys of an object. -/
def ownKeys {α : Type} (o : Props α) : List String := o.map Prod.fst

/-- The expression `obj[key]` on a plain object of primitives: the own
property, else the member inherited from `Object.prototype`, else
`undefined`. -/
def getProp (o : Props Prim) (key : String) : Prim :=
  match getOwn o key with
  | some v => v
  | none => if key ∈ objectPrototypeKeys then .builtin key else .undefined

/-- The assignment `obj[key] = v` on a plain object (`OrdinarySet`): the key
`__proto__` reaches the accessor of `Object.prototype`, which never creates an
own property (it replaces the prototype when `v` is an object or `null` and
does nothing otherwise); every other key becomes or updates an own property. -/
def setProp (o : Props Prim) (key : String) (v : Prim) : Props Prim :=
  if key = "__proto__" then o else setOwn o key v

/-! ## Path resolver and form identity -/

/-- The call `s.replace(/\/$/, '')`: drops the last character when it is a
slash. -/
def replaceTrailingSlash (s : String) : String :=
  if s.data.getLast? = some '/' then ⟨s.data.dropLast⟩ else s

/-- The function `getCurrentPath` of the script, on the value of
`window.location.pathname`. -/
def getCurrentPath (pathname : String) : String :=
  if pathname.length > 1 then replaceTrailingSlash pathname else pathname

/-- The call `s.replace(/^\//, '')`: drops the first character when it is a
slash. -/
def replaceLeadingSlash (s : String) : String :=
  match s.data with
  | '/' :: rest => ⟨rest⟩
  | _ => s

/-- The call `s.replace(/\//g, '-')`. -/
def replaceAllSlashes (s : String) : String :=
  ⟨s.data.map (fun c => if c = '/' then '-' else c)⟩

/-- The expression `$form.attr('id') || ''`, on the id attribute of the form
(`none` when the attribute is absent or the jQuery set is empty). -/
def formIdOrEmpty (idAttr : Option String) : String :=
  match idAttr with
  | some s => if s != "" then s else ""
  | none => ""

/-- The function `getFormExtraId` of the script, on the value of
`window.location.pathname` and the id attribute of the form. -/
def getFormExtraId (pathname : String) (idAttr : Option String) : String :=
  let formId := formIdOrEmpty idAttr
  let path := replaceAllSlashes (replaceLeadingSlash pathname)
  path ++ "-" ++ formId

/-- The path normalisation of a form identity: one leading slash stripped,
every remaining slash replaced by a hyphen. -/
def slug (s : String) : String := replaceAllSlashes (replaceLeadingSlash s)

/-! ## DOM -/

/-- The data of one DOM node that the script reads: its identity as an object
(`nid`), its lower-case tag name (`#text` for a text node), the `id`, `name`
and `type` attributes, the `checked` property and what `.val()` returns. -/
structure Elem where
  nid : Nat
  tag : String
  idAttr : Option String
  nameAttr : Option String
  typeAttr : Option String
  checked : Bool
  val : Prim
  deriving DecidableEq, Repr

/-- A DOM subtree. -/
inductive Node where
  | node (e : Elem) (children : List Node)
  deriving Repr

/-- The element data at the root of a subtree. -/
def Node.elem : Node → Elem
  | .node e _ => e

/-- The constant `formElements` of the script. -/
def formElements : List String := ["input", "textarea", "select"]

/-- The test `$node.is('form')`. -/
def isForm (e : Elem) : Bool := e.tag = "form"

/-- Whether an element matches the selector `formElements.join(',')`. -/
def isFormElement (e : Elem) : Bool := e.tag ∈ formElements

mutual
/-- The proper descendants of a node in document order, each paired with its
closest enclosing form: the nearest form among its proper ancestors inside the
subtree, else `ctx`, the closest form above the subtree. -/
def Node.descWithForm (ctx : Option Elem) : Node → List (Option Elem × Elem)
  | .node e cs => descWithFormList (if isForm e then some e else ctx) cs
/-- The list version of `Node.descWithForm`, over the children of a node. -/
def descWithFormList (ctx : Option Elem) : List Node → List (Option Elem × Elem)
  | [] => []
  | c :: cs => (ctx, c.elem) :: (Node.descWithForm ctx c ++ descWithFormList ctx cs)
end

mutual
/-- The proper descendants of a node that are forms, as subtrees, in document
order (`$node.find('form')`). -/
def Node.findForms : Node → List Node
  | .node _ cs => findFormsList cs
/-- The list version of `Node.findForms`, over the children of a node. -/
def findFormsList : List Node → List Node
  | [] => []
  | c :: cs => (if isForm c.elem then [c] else []) ++ (Node.findForms c ++ findFormsList cs)
end

/-- The trackable-tag descendants of a node in document order
(`$node.find(formElements.join(','))`). -/
def findFields (n : Node) : List Elem :=
  ((n.descWithForm none).map Prod.snd).filter isFormElement

/-- The trackable-tag descendants of a node in document order, each with the
result of `.closest('form')` on it. -/
def findFieldsWithForm (ctx : Option Elem) (n : Node) : List (Option Elem × Elem) :=
  (n.descWithForm ctx).filter (fun p => isFormElement p.2)

/-- The value a handler computes for a field: `'on'` or `'off'` when the type
attribute is `checkbox`, `.val()` otherwise. -/
def fieldValue (f : Elem) : Prim :=
  if f.typeAttr = some "checkbox" then (if f.checked then .str "on" else .str "off")
  else f.val

/-- The test `!name` on the result of `.attr('name')`: the attribute is absent
or empty. -/
def nameOf (f : Elem) : Option String :=
  match f.nameAttr with
  | some n => if n != "" then some n else none
  | none => none

/-! ## Tracking state -/

/-- The per-form tracking state stored in `formStates`. -/
structure FormState where
  submitted : Bool
  started : Bool
  fieldInteractionCounts : Props Prim
  deriving DecidableEq, Repr

/-- The state `trackForm` creates. -/
def FormState.initial : FormState :=
  { submitted := false, started := false, fieldInteractionCounts := [] }

/-- The listener `trackField` binds to a field: the form it was given and the
field name read at binding time. -/
structure ChangeListener where
  form : Option Elem
  fieldName : String
  deriving DecidableEq, Repr

/-- The payload of one `sendEvent` call. -/
abbrev Payload := Props JSVal

/-- One `sendEvent` call made by a handler, labelled with the key of the
tracking state the handler was working on (the label is not part of the
payload). -/
structure Emission where
  formExtraId : String
  payload : Payload
  deriving DecidableEq, Repr

/-- The payload `{event: 'form_start'}`. -/
def formStartPayload : Payload := [("event", .prim (.str "form_start"))]

/-- The payload of a `form_field_interaction` event. -/
def interactionPayload (fieldName : String) (value count : Prim) : Payload :=
  [("event", .prim (.str "form_field_interaction")), ("field", .prim (.str fieldName)),
   ("value", .prim value), ("count", .prim count)]

/-- The payload of a `form_submit` event. -/
def formSubmitPayload (formData : Props Prim) : Payload :=
  [("event", .prim (.str "form_submit")), ("data", .obj formData)]

/-- The member names the store object inherits (from `WeakMap.prototype` and
`Object.prototype`). -/
def storeInheritedKeys : List String :=
  ["constructor", "delete", "get", "has", "set"] ++ objectPrototypeKeys

/-- The store `formStates`, used by the script through property access with
the form identity as key.  Every identity contains a hyphen and no inherited
member name does (`getFormExtraId_not_inherited`), so the store is the list of
its own properties. -/
abbrev Store := Props FormState

/-- The function `handleInteraction` of the script: the new store and the
`sendEvent` calls it makes, in order. -/
def handleInteraction (pathname : String) (formStates : Store) (form : Option Elem)
    (fieldName : String) (value : Prim) : Store × List Emission :=
  let formExtraId := getFormExtraId pathname (form.bind Elem.idAttr)
  match getOwn formStates formExtraId with
  | none => (formStates, [])
  | some state =>
    if state.submitted then (formStates, [])
    else
      let start := if !state.started then [Emission.mk formExtraId formStartPayload] else []
      let state1 := if !state.started then { state with started := true } else state
      let counts := setProp state1.fieldInteractionCounts fieldName
        (jsAddOne (jsOr (getProp state1.fieldInteractionCounts fieldName) (.num 0)))
      let state2 := { state1 with fieldInteractionCounts := counts }
      (setOwn formStates formExtraId state2,
        start ++ [Emission.mk formExtraId
          (interactionPayload fieldName (jsOr value (.str "")) (getProp counts fieldName))])

/-- One iteration of the collection loop of the submit handler: a field
without a name is skipped, any other assigns `formData[name]`. -/
def collectStep (formData : Props Prim) (f : Elem) : Props Prim :=
  match nameOf f with
  | none => formData
  | some name => setProp formData name (fieldValue f)

/-- The object `formData` the submit handler builds from the descendants of
the form. -/
def collectFormData (form : Node) : Props Prim :=
  (findFields form).foldl collectStep []

/-- The submit handler bound by `trackForm`, with the `formExtraId` it
captured, on the current subtree of the form.  It throws (`none`) when the
store has no state under the key, since it reads `state.submitted` of
`undefined`. -/
def submitHandler (formStates : Store) (formExtraId : String) (form : Node) :
    Option (Store × List Emission) :=
  match getOwn formStates formExtraId with
  | none => none
  | some state =>
    if !state.submitted then
      some (setOwn formStates formExtraId { state with submitted := true },
        [Emission.mk formExtraId (formSubmitPayload (collectFormData form))])
    else some (formStates, [])

/-! ## Listeners, the tracker and the mutation watcher -/

/-- The state of the page that the script owns or reads: the location, the
store, and the listeners bound in the `formTracker` namespace, keyed by the
identity of the node they are bound to (a node has at most one of each, since
every binding is preceded by `.off`). -/
structure World where
  pathname : String
  formStates : Store
  changeListeners : List (Nat × ChangeListener)
  submitListeners : List (Nat × String)
  deriving DecidableEq, Repr

/-- The page when the script starts: nothing tracked, nothing bound. -/
def World.initial (pathname : String) : World :=
  { pathname := pathname, formStates := [], changeListeners := [], submitListeners := [] }

/-- The listener bound to a node, if any. -/
def listenerOf {α : Type} : List (Nat × α) → Nat → Option α
  | [], _ => none
  | (k, v) :: rest, nid => if k = nid then some v else listenerOf rest nid

/-- The calls `.off(ev).on(ev, handler)` on a node: the handler replaces the
one bound before. -/
def bindListener {α : Type} : List (Nat × α) → Nat → α → List (Nat × α)
  | [], nid, v => [(nid, v)]
  | (k, w) :: rest, nid, v =>
    if k = nid then (k, v) :: rest else (k, w) :: bindListener rest nid v

/-- The function `trackField` of the script. -/
def trackField (w : World) (form : Option Elem) (field : Elem) : World :=
  match nameOf field with
  | none => w
  | some fieldName =>
    { w with changeListeners :=
        bindListener w.changeListeners field.nid { form := form, fieldName := fieldName } }

/-- The function `trackForm` of the script. -/
def trackForm (w : World) (form : Node) : World :=
  let formExtraId := getFormExtraId w.pathname form.elem.idAttr
  match getOwn w.formStates formExtraId with
  | some _ => w
  | none =>
    let w1 : World :=
      { w with
        formStates := setOwn w.formStates formExtraId FormState.initial
        submitListeners := bindListener w.submitListeners form.elem.nid formExtraId }
    (findFields form).foldl (fun acc f => trackField acc (some form.elem) f) w1

/-- The body of the mutation callback for one added node; `ctx` is the closest
form at or above the place where the node was inserted. -/
def onAddedNode (w : World) (ctx : Option Elem) (node : Node) : World :=
  if isForm node.elem then trackForm w node
  else
    let w1 := node.findForms.foldl trackForm w
    (findFieldsWithForm ctx node).foldl (fun acc p => trackField acc p.1 p.2) w1

/-- What can happen on the page after the script has been installed. -/
inductive DomEvent where
  /-- A call of `trackForm` from the initial scan. -/
  | scan (form : Node)
  /-- A change event on a field, given with the current data of the field. -/
  | change (field : Elem)
  /-- A submit event on a form, given with the current subtree of the form. -/
  | submit (form : Node)
  /-- A mutation record: the added nodes, each with the closest form at or
  above its insertion point. -/
  | added (nodes : List (Option Elem × Node))

/-- The reaction of the script to one event: the new page state and the
`sendEvent` calls made, in order.  A handler that throws leaves the state as
it was. -/
def step (w : World) : DomEvent → World × List Emission
  | .scan form => (trackForm w form, [])
  | .change field =>
    match listenerOf w.changeListeners field.nid with
    | none => (w, [])
    | some l =>
      let r := handleInteraction w.pathname w.formStates l.form l.fieldName (fieldValue field)
      ({ w with formStates := r.1 }, r.2)
  | .submit form =>
    match listenerOf w.submitListeners form.elem.nid with
    | none => (w, [])
    | some formExtraId =>
      match submitHandler w.formStates formExtraId form with
      | none => (w, [])
      | some r => ({ w with formStates := r.1 }, r.2)
  | .added nodes => (nodes.foldl (fun acc p => onAddedNode acc p.1 p.2) w, [])

/-- The reaction of the script to a sequence of events. -/
def run (w : World) : List DomEvent → World × List Emission
  | [] => (w, [])
  | ev :: evs =>
    let r1 := step w ev
    let r2 := run r1.1 evs
    (r2.1, r1.2 ++ r2.2)

/-! ## Reading a trace -/

/-- Whether an emission is the `form_start` event of the identity `key`. -/
def isStartOf (key : String) (e : Emission) : Bool :=
  decide (e.formExtraId = key) &&
    decide (getOwn e.payload "event" = some (.prim (.str "form_start")))

/-- Whether an emission is a `form_field_interaction` event of the identity
`key`. -/
def isInteractionOf (key : String) (e : Emission) : Bool :=
  decide (e.formExtraId = key) &&
    decide (getOwn e.payload "event" = some (.prim (.str "form_field_interaction")))

/-- The `started` flag of an identity, `false` when it has no state. -/
def startedAt (formStates : Store) (key : String) : Bool :=
  match getOwn formStates key with
  | some st => st.started
  | none => false

/-- Every interaction event of the identity has a start event of the identity
before it. -/
def StartFirst (key : String) (trace : List Emission) : Prop :=
  ∀ pre e post, trace = pre ++ e :: post → isInteractionOf key e = true →
    ∃ s ∈ pre, isStartOf key s = true

/-- The second store has the entries of the first, unchanged, and possibly
more entries, all initial. -/
def StoreExt (s s' : Store) : Prop :=
  ∀ k, getOwn s' k = getOwn s k ∨ (getOwn s k = none ∧ getOwn s' k = some FormState.initial)

/-- The counter update of `handleInteraction`: the assignment
`counts[fieldName] = (counts[fieldName] || 0) + 1`. -/
def bumpCount (counts : Props Prim) (fieldName : String) : Props Prim :=
  setProp counts fieldName (jsAddOne (jsOr (getProp counts fieldName) (.num 0)))

/-- The link between the store and the trace for one identity: the trace has
one start event of the identity when its `started` flag is set and none
otherwise, and the start comes first. -/
def TraceInv (key : String) (formStates : Store) (trace : List Emission) : Prop :=
  List.countP (isStartOf key) trace = (if startedAt formStates key then 1 else 0) ∧
    StartFirst key trace

/-- Whether an emission is a `form_field_interaction` event of the identity
`key` on the field `fieldName`. -/
def isInteractionOn (key fieldName : String) (e : Emission) : Bool :=
  isInteractionOf key e && decide (getOwn e.payload "field" = some (.prim (.str fieldName)))

/-- The `count` values of the interaction events of an identity and a field,
in emission order. -/
def countsOf (key fieldName : String) (trace : List Emission) : List (Option JSVal) :=
  (trace.filter (isInteractionOn key fieldName)).map (fun e => getOwn e.payload "count")

/-- The counts `1, 2, ..., k` as values of an event record. -/
def oneTo (k : Nat) : List (Option JSVal) :=
  (List.range k).map (fun i => some (.prim (.num (i + 1))))

/-- The own counter of a field in the state of an identity. -/
def ownCountAt (formStates : Store) (key fieldName : String) : Option Prim :=
  match getOwn formStates key with
  | some st => getOwn st.fieldInteractionCounts fieldName
  | none => none

/-- The link between the store and the trace for one identity and one field:
the counts emitted so far are `1, ..., k` and the own counter holds `k`. -/
def CountInv (key fieldName : String) (formStates : Store) (trace : List Emission) : Prop :=
  ∃ k, countsOf key fieldName trace = oneTo k ∧
    ownCountAt formStates key fieldName = (if k = 0 then none else some (.num k))

/-! ## Event emitter -/

/-- An exception thrown while the script runs. -/
inductive JSError where
  | typeError
  | rangeError
  | other (message : String)
  deriving DecidableEq, Repr

/-- One slot of the array `window.dataLayer`: a hole, a record of the shape
`sendEvent` builds, or any other value the page has put there. -/
inductive QueueItem where
  | hole
  | record (r : Payload)
  | other (v : JSVal)
  deriving DecidableEq, Repr

/-- What the property `push` of the array resolves to: the inherited
`Array.prototype.push`, a value that is not callable, or a replacement
function (as a tag manager installs), given by the slots it leaves and the
exception it throws, if any. -/
inductive PushImpl where
  | builtin
  | notCallable
  | replaced (f : List QueueItem → Payload → List QueueItem × Option JSError)

/-- An array object as far as `push` depends on it: its slots, whether new
properties can be added (`false` after `Object.preventExtensions`, `seal` or
`freeze`), whether `length` is writable, and its `push`. -/
structure ArrayObj where
  items : List QueueItem
  extensible : Bool
  lengthWritable : Bool
  push : PushImpl

/-- A value for which `Array.isArray` is false. -/
inductive NonArray where
  | null
  | bool (b : Bool)
  | num (n : Nat)
  | str (s : String)
  | object (id : Nat)
  deriving DecidableEq, Repr

/-- The value of `window.dataLayer`. -/
inductive DataLayer where
  | absent
  | notArray (v : NonArray)
  | array (a : ArrayObj)

/-- The slots of the queue, when it is an array. -/
def DataLayer.items : DataLayer → Option (List QueueItem)
  | .array a => some a.items
  | _ => none

/-- The largest length of an array, `2^32 - 1`. -/
def maxArrayLength : Nat := 4294967295

/-- The call `a.push(r)`: the array afterwards and the exception thrown, if
any.  The built-in method stores `r` at index `length` and then writes
`length`: the store throws a `TypeError` on an array that is not extensible or
whose `length` is not writable, and at the largest length the write of
`length` throws a `RangeError`; in each case the slots stay as they were.  A
`push` that is not callable throws a `TypeError`. -/
def arrayPush (a : ArrayObj) (r : Payload) : ArrayObj × Option JSError :=
  match a.push with
  | .builtin =>
    if !a.extensible then (a, some .typeError)
    else if a.items.length ≥ maxArrayLength then (a, some .rangeError)
    else if !a.lengthWritable then (a, some .typeError)
    else ({ a with items := a.items ++ [.record r] }, none)
  | .notCallable => (a, some .typeError)
  | .replaced f => ({ a with items := (f a.items r).1 }, (f a.items r).2)

/-- A line written to the console. -/
inductive ConsoleLine where
  | log (message : String) (eventData : Payload)
  | warn (message : String)
  deriving DecidableEq, Repr

/-- What a call of `sendEvent` leaves behind: the value of
`window.dataLayer`, the console output, and the exception that left the
function, if any. -/
structure SendResult where
  dataLayer : DataLayer
  console : List ConsoleLine
  thrown : Option JSError

/-- The object `{ path: ..., timestamp: ..., ...data }` built by `sendEvent`:
the spread defines each own property of `data` in order on the object that
already has `path` and `timestamp`. -/
def eventData (pathname now : String) (data : Payload) : Payload :=
  data.foldl (fun acc kv => setOwn acc kv.1 kv.2)
    [("path", .prim (.str (getCurrentPath pathname))), ("timestamp", .prim (.str now))]

/-- The function `sendEvent` of the script.  `now` is the text
`new Date().toISOString()` returns.  On an array the record is logged and then
pushed, with no handler around the call, so an exception of `push` leaves the
function; otherwise a warning is logged. -/
def sendEvent (pathname now : String) (data : Payload) (dataLayer : DataLayer) : SendResult :=
  match dataLayer with
  | .array a =>
    { dataLayer := .array (arrayPush a (eventData pathname now data)).1
      console := [.log "Data sent to GTM:" (eventData pathname now data)]
      thrown := (arrayPush a (eventData pathname now data)).2 }
  | other => { dataLayer := other, console := [.warn "GTM is not loaded"], thrown := none }

end GtmFormTracker

namespace GtmFormTracker

/-! ## Example pages -/

namespace Example

/-- An `input` element with a name and a value. -/
def textInput (nid : Nat) (name value : String) : Elem :=
  { nid := nid, tag := "input", idAttr := none, nameAttr := some name, typeAttr := some "text",
    checked := false, val := .str value }

/-- A `form` element with an id attribute. -/
def formElem (nid : Nat) (id : String) : Elem :=
  { nid := nid, tag := "form", idAttr := some id, nameAttr := none, typeAttr := none,
    checked := false, val := .undefined }

/-- A `div` element. -/
def divElem (nid : Nat) : Elem :=
  { nid := nid, tag := "div", idAttr := none, nameAttr := none, typeAttr := none,
    checked := false, val := .undefined }

/-- The form of the scenario of the specification: `id="contact"` with one
input named `email`, holding the given value. -/
def contactForm (email : String) : Node :=
  .node (formElem 1 "contact") [.node (textInput 2 "email" email) []]

/-- The page of the scenario after the initial scan, at `/contact-us/`. -/
def contactPage : World :=
  (run (World.initial "/contact-us/") [.scan (contactForm "")]).1

/-- A form with id `signup` and one input whose name is a member name of
`Object.prototype`. -/
def signupForm (fieldName value : String) : Node :=
  .node (formElem 1 "signup") [.node (textInput 2 fieldName value) []]

/-- A form with the given id attribute, if any, and one input named `email`. -/
def emailForm (nid : Nat) (idAttr : Option String) (fieldNid : Nat) : Node :=
  .node { nid := nid, tag := "form", idAttr := idAttr, nameAttr := none, typeAttr := none,
          checked := false, val := .undefined }
    [.node (textInput fieldNid "email" "") []]

/-- An ordinary array holding the given slots. -/
def ordinaryQueue (items : List QueueItem) : ArrayObj :=
  { items := items, extensible := true, lengthWritable := true, push := .builtin }

/-- The array `Object.freeze([])`. -/
def frozenQueue : ArrayObj :=
  { items := [], extensible := false, lengthWritable := false, push := .builtin }

end Example

end GtmFormTracker

namespace GtmFormTracker

/-! ## Strings -/

theorem data_append_slash (q : String) : (q ++ "/").data = q.data ++ ['/'] := by
  simp [String.data_append]

theorem endsWithSlash_iff (p : String) :
    (∃ q : String, p = q ++ "/") ↔ p.data.getLast? = some '/' := by
  constructor
  · rintro ⟨q, rfl⟩
    rw [data_append_slash]
    simp
  · intro h
    refine ⟨⟨p.data.dropLast⟩, ?_⟩
    apply String.ext
    rw [data_append_slash]
    have hne : p.data ≠ [] := by
      intro h0
      rw [h0] at h
      simp at h
    have hl : p.data.getLast hne = '/' := by
      rw [List.getLast?_eq_getLast _ hne] at h
      exact Option.some.inj h
    calc p.data = p.data.dropLast ++ [p.data.getLast hne] := (List.dropLast_append_getLast hne).symm
      _ = p.data.dropLast ++ ['/'] := by rw [hl]

theorem replaceTrailingSlash_append (q : String) : replaceTrailingSlash (q ++ "/") = q := by
  unfold replaceTrailingSlash
  rw [data_append_slash]
  simp

/-- The function `getCurrentPath` on a path of length at most one. -/
theorem getCurrentPath_short (p : String) (h : p.length ≤ 1) : getCurrentPath p = p := by
  unfold getCurrentPath
  rw [if_neg (by omega)]

/-- The function `getCurrentPath` on a longer path that ends in a slash. -/
theorem getCurrentPath_append_slash (q : String) (h : 1 < (q ++ "/").length) :
    getCurrentPath (q ++ "/") = q := by
  unfold getCurrentPath
  rw [if_pos h, replaceTrailingSlash_append]

/-- The function `getCurrentPath` on a path that does not end in a slash. -/
theorem getCurrentPath_no_slash (p : String) (h : ¬ ∃ q : String, p = q ++ "/") :
    getCurrentPath p = p := by
  rw [endsWithSlash_iff] at h
  unfold getCurrentPath replaceTrailingSlash
  rw [if_neg h]
  simp

end GtmFormTracker

namespace GtmFormTracker

theorem formIdOrEmpty_eq (idAttr : Option String) : formIdOrEmpty idAttr = idAttr.getD "" := by
  unfold formIdOrEmpty
  cases idAttr with
  | none => rfl
  | some s =>
    by_cases h : s = ""
    · simp [h]
    · simp [h]

theorem replaceAllSlashes_append (a b : String) :
    replaceAllSlashes (a ++ b) = replaceAllSlashes a ++ replaceAllSlashes b := by
  apply String.ext
  simp [replaceAllSlashes, String.data_append]

theorem replaceLeadingSlash_append (q : String) (h : q.data ≠ []) :
    replaceLeadingSlash (q ++ "/") = replaceLeadingSlash q ++ "/" := by
  obtain ⟨l⟩ := q
  cases l with
  | nil => exact absurd rfl h
  | cons c cs =>
    by_cases hc : c = '/'
    · subst hc
      apply String.ext
      simp [replaceLeadingSlash, String.data_append]
    · apply String.ext
      have h1 : replaceLeadingSlash (⟨c :: cs⟩ ++ "/") = ⟨c :: cs⟩ ++ "/" := by
        unfold replaceLeadingSlash
        split
        · rename_i rest heq
          simp [String.data_append] at heq
          exact absurd heq.1 hc
        · rfl
      have h2 : replaceLeadingSlash ⟨c :: cs⟩ = ⟨c :: cs⟩ := by
        unfold replaceLeadingSlash
        split
        · rename_i rest heq
          simp at heq
          exact absurd heq.1 hc
        · rfl
      rw [h1, h2]

theorem slug_append_slash (q : String) (h : 1 < (q ++ "/").length) :
    slug (q ++ "/") = slug q ++ "-" := by
  have hq : q.data ≠ [] := by
    intro h0
    have h1 : (q ++ "/").length = (q.data ++ ['/']).length := by
      rw [← data_append_slash]
      rfl
    rw [h0] at h1
    have h2 : (([] : List Char) ++ ['/']).length = 1 := rfl
    omega
  unfold slug
  rw [replaceLeadingSlash_append q hq, replaceAllSlashes_append]
  rfl

theorem getFormExtraId_has_hyphen (p : String) (idAttr : Option String) :
    '-' ∈ (getFormExtraId p idAttr).data := by
  simp [getFormExtraId, String.data_append]

/-- No form identity is a member name inherited by the store object. -/
theorem getFormExtraId_not_inherited (p : String) (idAttr : Option String) :
    getFormExtraId p idAttr ∉ storeInheritedKeys := by
  intro h
  have h1 : ∀ k ∈ storeInheritedKeys, '-' ∉ k.data := by decide
  exact h1 _ h (getFormExtraId_has_hyphen p idAttr)

end GtmFormTracker

namespace GtmFormTracker

/-! ## Own properties -/

theorem getOwn_setOwn_same {α : Type} (o : Props α) (k : String) (v : α) :
    getOwn (setOwn o k v) k = some v := by
  induction o with
  | nil => simp [setOwn, getOwn]
  | cons kv rest ih =>
    obtain ⟨k0, w⟩ := kv
    by_cases h : k0 = k
    · simp [setOwn, getOwn, h]
    · simp [setOwn, getOwn, h, ih]

theorem getOwn_setOwn_ne {α : Type} (o : Props α) (k key : String) (v : α) (hne : key ≠ k) :
    getOwn (setOwn o k v) key = getOwn o key := by
  have hne2 : ¬ k = key := fun h => hne h.symm
  induction o with
  | nil => simp [setOwn, getOwn, hne2]
  | cons kv rest ih =>
    obtain ⟨k0, w⟩ := kv
    by_cases h : k0 = k
    · subst h
      simp [setOwn, getOwn, hne2]
    · by_cases h2 : k0 = key
      · subst h2
        simp [setOwn, getOwn, h]
      · simp [setOwn, getOwn, h, h2, ih]

theorem getOwn_eq_none_of_not_mem {α : Type} (o : Props α) (k : String)
    (h : k ∉ ownKeys o) : getOwn o k = none := by
  induction o with
  | nil => rfl
  | cons kv rest ih =>
    obtain ⟨k0, w⟩ := kv
    simp [ownKeys] at h
    have h1 : ¬ k0 = k := fun h2 => h.1 h2.symm
    simp only [getOwn, h1, if_false]
    apply ih
    simp [ownKeys]
    exact h.2

theorem not_mem_of_getOwn_eq_none {α : Type} (o : Props α) (k : String)
    (h : getOwn o k = none) : k ∉ ownKeys o := by
  induction o with
  | nil => simp [ownKeys]
  | cons kv rest ih =>
    obtain ⟨k0, w⟩ := kv
    by_cases h1 : k0 = k
    · simp [getOwn, h1] at h
    · simp only [getOwn, h1, if_false] at h
      have := ih h
      simp [ownKeys] at this ⊢
      exact ⟨fun h2 => h1 h2.symm, this⟩

theorem ownKeys_setOwn_of_none {α : Type} (o : Props α) (k : String) (v : α)
    (h : getOwn o k = none) : ownKeys (setOwn o k v) = ownKeys o ++ [k] := by
  induction o with
  | nil => rfl
  | cons kv rest ih =>
    obtain ⟨k0, w⟩ := kv
    by_cases h1 : k0 = k
    · simp [getOwn, h1] at h
    · simp only [getOwn, h1, if_false] at h
      have := ih h
      simp only [ownKeys] at this
      simp [setOwn, h1, ownKeys, this]

theorem ownKeys_setOwn_of_some {α : Type} (o : Props α) (k : String) (v w : α)
    (h : getOwn o k = some w) : ownKeys (setOwn o k v) = ownKeys o := by
  induction o with
  | nil => simp [getOwn] at h
  | cons kv rest ih =>
    obtain ⟨k0, w0⟩ := kv
    by_cases h1 : k0 = k
    · simp [setOwn, h1, ownKeys]
    · simp only [getOwn, h1, if_false] at h
      have := ih h
      simp only [ownKeys] at this
      simp [setOwn, h1, ownKeys, this]

/-- Lookup in the result of an object spread onto `base`. -/
theorem getOwn_spread {α : Type} (data base : Props α) (key : String)
    (hdata : (ownKeys data).Nodup) :
    getOwn (data.foldl (fun acc kv => setOwn acc kv.1 kv.2) base) key =
      match getOwn data key with
      | some v => some v
      | none => getOwn base key := by
  induction data generalizing base with
  | nil => rfl
  | cons kv rest ih =>
    obtain ⟨k, v⟩ := kv
    have hnd : k ∉ ownKeys rest ∧ (ownKeys rest).Nodup := by
      simpa [ownKeys] using hdata
    rw [List.foldl_cons, ih _ hnd.2]
    by_cases h : k = key
    · subst h
      rw [getOwn_eq_none_of_not_mem rest k hnd.1]
      simp [getOwn, getOwn_setOwn_same]
    · have h2 : key ≠ k := fun h3 => h h3.symm
      simp only [getOwn, h, if_false]
      rw [getOwn_setOwn_ne _ _ _ _ h2]

/-! ## The tracker leaves states alone -/

theorem trackField_formStates (w : World) (form : Option Elem) (f : Elem) :
    (trackField w form f).formStates = w.formStates := by
  unfold trackField
  split <;> rfl

theorem trackField_pathname (w : World) (form : Option Elem) (f : Elem) :
    (trackField w form f).pathname = w.pathname := by
  unfold trackField
  split <;> rfl

theorem trackField_submitListeners (w : World) (form : Option Elem) (f : Elem) :
    (trackField w form f).submitListeners = w.submitListeners := by
  unfold trackField
  split <;> rfl

theorem foldl_trackField_formStates {β : Type} (fs : List β) (g : β → Option Elem)
    (h : β → Elem) (w : World) :
    (fs.foldl (fun acc x => trackField acc (g x) (h x)) w).formStates = w.formStates := by
  induction fs generalizing w with
  | nil => rfl
  | cons x rest ih => rw [List.foldl_cons, ih, trackField_formStates]

theorem foldl_trackField_pathname {β : Type} (fs : List β) (g : β → Option Elem)
    (h : β → Elem) (w : World) :
    (fs.foldl (fun acc x => trackField acc (g x) (h x)) w).pathname = w.pathname := by
  induction fs generalizing w with
  | nil => rfl
  | cons x rest ih => rw [List.foldl_cons, ih, trackField_pathname]

theorem foldl_trackField_submitListeners {β : Type} (fs : List β) (g : β → Option Elem)
    (h : β → Elem) (w : World) :
    (fs.foldl (fun acc x => trackField acc (g x) (h x)) w).submitListeners
      = w.submitListeners := by
  induction fs generalizing w with
  | nil => rfl
  | cons x rest ih => rw [List.foldl_cons, ih, trackField_submitListeners]

theorem trackForm_pathname (w : World) (form : Node) :
    (trackForm w form).pathname = w.pathname := by
  cases h : getOwn w.formStates (getFormExtraId w.pathname form.elem.idAttr) with
  | some st => simp only [trackForm, h]
  | none =>
    simp only [trackForm, h]
    exact foldl_trackField_pathname (findFields form) (fun _ => some form.elem) id _

theorem trackForm_formStates (w : World) (form : Node) :
    (trackForm w form).formStates =
      match getOwn w.formStates (getFormExtraId w.pathname form.elem.idAttr) with
      | some _ => w.formStates
      | none => setOwn w.formStates (getFormExtraId w.pathname form.elem.idAttr)
          FormState.initial := by
  cases h : getOwn w.formStates (getFormExtraId w.pathname form.elem.idAttr) with
  | some st => simp only [trackForm, h]
  | none =>
    simp only [trackForm, h]
    exact foldl_trackField_formStates (findFields form) (fun _ => some form.elem) id _

theorem trackForm_of_tracked (w : World) (form : Node) (st : FormState)
    (h : getOwn w.formStates (getFormExtraId w.pathname form.elem.idAttr) = some st) :
    trackForm w form = w := by
  unfold trackForm
  simp [h]

end GtmFormTracker

namespace GtmFormTracker

/-! ## Store extension -/

theorem StoreExt.refl (s : Store) : StoreExt s s := fun _ => Or.inl rfl

theorem StoreExt.trans {s1 s2 s3 : Store} (h12 : StoreExt s1 s2) (h23 : StoreExt s2 s3) :
    StoreExt s1 s3 := by
  intro k
  rcases h12 k with a | ⟨a1, a2⟩
  · rcases h23 k with b | ⟨b1, b2⟩
    · exact Or.inl (b.trans a)
    · exact Or.inr ⟨a ▸ b1, b2⟩
  · rcases h23 k with b | ⟨b1, b2⟩
    · exact Or.inr ⟨a1, b.trans a2⟩
    · rw [a2] at b1
      cases b1

theorem StoreExt.of_some {s s' : Store} (h : StoreExt s s') {k : String} {st : FormState}
    (hk : getOwn s k = some st) : getOwn s' k = some st := by
  rcases h k with a | ⟨a1, _⟩
  · rw [a, hk]
  · rw [hk] at a1
    cases a1

theorem StoreExt.startedAt {s s' : Store} (h : StoreExt s s') (k : String) :
    startedAt s' k = startedAt s k := by
  unfold GtmFormTracker.startedAt
  rcases h k with a | ⟨a1, a2⟩
  · rw [a]
  · rw [a1, a2]
    rfl

theorem trackForm_storeExt (w : World) (form : Node) :
    StoreExt w.formStates (trackForm w form).formStates := by
  rw [trackForm_formStates]
  cases h : getOwn w.formStates (getFormExtraId w.pathname form.elem.idAttr) with
  | some st => exact StoreExt.refl _
  | none =>
    intro k
    by_cases hk : k = getFormExtraId w.pathname form.elem.idAttr
    · subst hk
      exact Or.inr ⟨h, getOwn_setOwn_same _ _ _⟩
    · exact Or.inl (getOwn_setOwn_ne _ _ _ _ hk)

theorem foldl_trackForm_storeExt (forms : List Node) (w : World) :
    StoreExt w.formStates (forms.foldl trackForm w).formStates := by
  induction forms generalizing w with
  | nil => exact StoreExt.refl _
  | cons f rest ih =>
    rw [List.foldl_cons]
    exact (trackForm_storeExt w f).trans (ih _)

theorem foldl_trackForm_pathname (forms : List Node) (w : World) :
    (forms.foldl trackForm w).pathname = w.pathname := by
  induction forms generalizing w with
  | nil => rfl
  | cons f rest ih => rw [List.foldl_cons, ih, trackForm_pathname]

theorem onAddedNode_storeExt (w : World) (ctx : Option Elem) (node : Node) :
    StoreExt w.formStates (onAddedNode w ctx node).formStates := by
  unfold onAddedNode
  split
  · exact trackForm_storeExt w node
  · rw [foldl_trackField_formStates (findFieldsWithForm ctx node) Prod.fst Prod.snd]
    exact foldl_trackForm_storeExt _ w

theorem onAddedNode_pathname (w : World) (ctx : Option Elem) (node : Node) :
    (onAddedNode w ctx node).pathname = w.pathname := by
  unfold onAddedNode
  split
  · exact trackForm_pathname w node
  · rw [foldl_trackField_pathname (findFieldsWithForm ctx node) Prod.fst Prod.snd]
    exact foldl_trackForm_pathname _ w

theorem foldl_onAddedNode_storeExt (nodes : List (Option Elem × Node)) (w : World) :
    StoreExt w.formStates (nodes.foldl (fun acc p => onAddedNode acc p.1 p.2) w).formStates := by
  induction nodes generalizing w with
  | nil => exact StoreExt.refl _
  | cons n rest ih =>
    rw [List.foldl_cons]
    exact (onAddedNode_storeExt w n.1 n.2).trans (ih _)

theorem foldl_onAddedNode_pathname (nodes : List (Option Elem × Node)) (w : World) :
    (nodes.foldl (fun acc p => onAddedNode acc p.1 p.2) w).pathname = w.pathname := by
  induction nodes generalizing w with
  | nil => rfl
  | cons n rest ih => rw [List.foldl_cons, ih, onAddedNode_pathname]

/-! ## The interaction handler, case by case -/

theorem handleInteraction_untracked (pathname : String) (fs : Store) (form : Option Elem)
    (fieldName : String) (value : Prim)
    (h : getOwn fs (getFormExtraId pathname (form.bind Elem.idAttr)) = none) :
    handleInteraction pathname fs form fieldName value = (fs, []) := by
  simp only [handleInteraction, h]

theorem handleInteraction_submitted (pathname : String) (fs : Store) (form : Option Elem)
    (fieldName : String) (value : Prim) (st : FormState)
    (h : getOwn fs (getFormExtraId pathname (form.bind Elem.idAttr)) = some st)
    (hs : st.submitted = true) :
    handleInteraction pathname fs form fieldName value = (fs, []) := by
  simp only [handleInteraction, h, hs, if_true]

theorem handleInteraction_first (pathname : String) (fs : Store) (form : Option Elem)
    (fieldName : String) (value : Prim) (st : FormState)
    (h : getOwn fs (getFormExtraId pathname (form.bind Elem.idAttr)) = some st)
    (hs : st.submitted = false) (hst : st.started = false) :
    handleInteraction pathname fs form fieldName value =
      (setOwn fs (getFormExtraId pathname (form.bind Elem.idAttr))
        { submitted := false, started := true,
          fieldInteractionCounts := setProp st.fieldInteractionCounts fieldName
            (jsAddOne (jsOr (getProp st.fieldInteractionCounts fieldName) (.num 0))) },
       [⟨getFormExtraId pathname (form.bind Elem.idAttr), formStartPayload⟩,
        ⟨getFormExtraId pathname (form.bind Elem.idAttr),
          interactionPayload fieldName (jsOr value (.str ""))
            (getProp (setProp st.fieldInteractionCounts fieldName
              (jsAddOne (jsOr (getProp st.fieldInteractionCounts fieldName) (.num 0))))
              fieldName)⟩]) := by
  simp [handleInteraction, h, hs, hst]

theorem handleInteraction_later (pathname : String) (fs : Store) (form : Option Elem)
    (fieldName : String) (value : Prim) (st : FormState)
    (h : getOwn fs (getFormExtraId pathname (form.bind Elem.idAttr)) = some st)
    (hs : st.submitted = false) (hst : st.started = true) :
    handleInteraction pathname fs form fieldName value =
      (setOwn fs (getFormExtraId pathname (form.bind Elem.idAttr))
        { submitted := false, started := true,
          fieldInteractionCounts := setProp st.fieldInteractionCounts fieldName
            (jsAddOne (jsOr (getProp st.fieldInteractionCounts fieldName) (.num 0))) },
       [⟨getFormExtraId pathname (form.bind Elem.idAttr),
          interactionPayload fieldName (jsOr value (.str ""))
            (getProp (setProp st.fieldInteractionCounts fieldName
              (jsAddOne (jsOr (getProp st.fieldInteractionCounts fieldName) (.num 0))))
              fieldName)⟩]) := by
  obtain ⟨sub, sta, cnt⟩ := st
  simp only at hs hst
  subst hs hst
  simp [handleInteraction, h]

end GtmFormTracker

namespace GtmFormTracker

/-! ## The submit handler, case by case -/

theorem submitHandler_first (fs : Store) (key : String) (form : Node) (st : FormState)
    (h : getOwn fs key = some st) (hs : st.submitted = false) :
    submitHandler fs key form =
      some (setOwn fs key { st with submitted := true },
        [⟨key, formSubmitPayload (collectFormData form)⟩]) := by
  simp [submitHandler, h, hs]

theorem submitHandler_again (fs : Store) (key : String) (form : Node) (st : FormState)
    (h : getOwn fs key = some st) (hs : st.submitted = true) :
    submitHandler fs key form = some (fs, []) := by
  simp [submitHandler, h, hs]

theorem submitHandler_untracked (fs : Store) (key : String) (form : Node)
    (h : getOwn fs key = none) : submitHandler fs key form = none := by
  simp [submitHandler, h]

/-! ## One step, case by case -/

theorem step_change (w : World) (field : Elem) (l : ChangeListener)
    (hl : listenerOf w.changeListeners field.nid = some l) :
    step w (.change field) =
      ({ w with formStates :=
          (handleInteraction w.pathname w.formStates l.form l.fieldName (fieldValue field)).1 },
       (handleInteraction w.pathname w.formStates l.form l.fieldName (fieldValue field)).2) := by
  simp only [step, hl]

theorem step_submit (w : World) (form : Node) (key : String) (r : Store × List Emission)
    (hl : listenerOf w.submitListeners form.elem.nid = some key)
    (hr : submitHandler w.formStates key form = some r) :
    step w (.submit form) = ({ w with formStates := r.1 }, r.2) := by
  simp only [step, hl, hr]

/-- Every step is of one of three kinds: it emits nothing and at most adds
initial states; it is an interaction on a tracked, unsubmitted identity; it is
the first submission of a tracked identity. -/
theorem step_cases (w : World) (ev : DomEvent) :
    ((step w ev).2 = [] ∧ StoreExt w.formStates (step w ev).1.formStates) ∨
    (∃ key st fieldName value,
      getOwn w.formStates key = some st ∧ st.submitted = false ∧
      (step w ev).1.formStates = setOwn w.formStates key
        { submitted := false, started := true,
          fieldInteractionCounts := bumpCount st.fieldInteractionCounts fieldName } ∧
      (step w ev).2 = (if st.started then [] else [⟨key, formStartPayload⟩]) ++
        [⟨key, interactionPayload fieldName value
          (getProp (bumpCount st.fieldInteractionCounts fieldName) fieldName)⟩]) ∨
    (∃ key st form,
      getOwn w.formStates key = some st ∧ st.submitted = false ∧
      (step w ev).1.formStates = setOwn w.formStates key { st with submitted := true } ∧
      (step w ev).2 = [⟨key, formSubmitPayload (collectFormData form)⟩]) := by
  cases ev with
  | scan form => exact Or.inl ⟨rfl, trackForm_storeExt w form⟩
  | added nodes => exact Or.inl ⟨rfl, foldl_onAddedNode_storeExt nodes w⟩
  | change field =>
    cases hl : listenerOf w.changeListeners field.nid with
    | none =>
      have e : step w (.change field) = (w, []) := by simp only [step, hl]
      rw [e]
      exact Or.inl ⟨rfl, StoreExt.refl _⟩
    | some l =>
      cases hg : getOwn w.formStates (getFormExtraId w.pathname (l.form.bind Elem.idAttr)) with
      | none =>
        have e : step w (.change field) = (w, []) := by
          simp only [step, hl, handleInteraction_untracked _ _ _ _ _ hg]
        rw [e]
        exact Or.inl ⟨rfl, StoreExt.refl _⟩
      | some st =>
        cases hs : st.submitted with
        | true =>
          have e : step w (.change field) = (w, []) := by
            simp only [step, hl, handleInteraction_submitted _ _ _ _ _ st hg hs]
          rw [e]
          exact Or.inl ⟨rfl, StoreExt.refl _⟩
        | false =>
          right
          left
          refine ⟨_, st, l.fieldName, jsOr (fieldValue field) (.str ""), hg, hs, ?_⟩
          cases hst : st.started with
          | false =>
            have e := handleInteraction_first w.pathname w.formStates l.form l.fieldName
              (fieldValue field) st hg hs hst
            rw [step_change w field l hl, e]
            exact ⟨rfl, rfl⟩
          | true =>
            have e := handleInteraction_later w.pathname w.formStates l.form l.fieldName
              (fieldValue field) st hg hs hst
            rw [step_change w field l hl, e]
            exact ⟨rfl, rfl⟩
  | submit form =>
    cases hl : listenerOf w.submitListeners form.elem.nid with
    | none =>
      have e : step w (.submit form) = (w, []) := by simp only [step, hl]
      rw [e]
      exact Or.inl ⟨rfl, StoreExt.refl _⟩
    | some key =>
      cases hg : getOwn w.formStates key with
      | none =>
        have e : step w (.submit form) = (w, []) := by
          simp only [step, hl, submitHandler_untracked _ _ _ hg]
        rw [e]
        exact Or.inl ⟨rfl, StoreExt.refl _⟩
      | some st =>
        cases hs : st.submitted with
        | true =>
          have e : step w (.submit form) = (w, []) := by
            simp only [step, hl, submitHandler_again _ _ _ st hg hs]
          rw [e]
          exact Or.inl ⟨rfl, StoreExt.refl _⟩
        | false =>
          right
          right
          refine ⟨key, st, form, hg, hs, ?_⟩
          rw [step_submit w form key _ hl (submitHandler_first _ _ _ st hg hs)]
          exact ⟨rfl, rfl⟩

/-! ## After submission -/

theorem step_submitted (w : World) (ev : DomEvent) (key : String) (st : FormState)
    (h : getOwn w.formStates key = some st) (hs : st.submitted = true) :
    getOwn (step w ev).1.formStates key = some st ∧
      ∀ e ∈ (step w ev).2, e.formExtraId ≠ key := by
  rcases step_cases w ev with ⟨h1, h2⟩ | ⟨k, st', fn, v, h1, h2, h3, h4⟩ | ⟨k, st', f, h1, h2, h3, h4⟩
  · rw [h1]
    exact ⟨h2.of_some h, by simp⟩
  · have hk : key ≠ k := by
      intro hk
      subst hk
      rw [h] at h1
      cases h1
      rw [hs] at h2
      cases h2
    rw [h3, h4, getOwn_setOwn_ne _ _ _ _ hk]
    refine ⟨h, ?_⟩
    intro e he
    have : e.formExtraId = k := by
      split at he
      · simp at he
        rw [he]
      · simp at he
        rcases he with he | he <;> rw [he]
    rw [this]
    exact fun h5 => hk h5.symm
  · have hk : key ≠ k := by
      intro hk
      subst hk
      rw [h] at h1
      cases h1
      rw [hs] at h2
      cases h2
    rw [h3, h4, getOwn_setOwn_ne _ _ _ _ hk]
    refine ⟨h, ?_⟩
    intro e he
    simp at he
    rw [he]
    exact fun h5 => hk h5.symm

theorem run_submitted (w : World) (evs : List DomEvent) (key : String) (st : FormState)
    (h : getOwn w.formStates key = some st) (hs : st.submitted = true) :
    getOwn (run w evs).1.formStates key = some st ∧
      ∀ e ∈ (run w evs).2, e.formExtraId ≠ key := by
  induction evs generalizing w with
  | nil => exact ⟨h, by simp [run]⟩
  | cons ev rest ih =>
    have h1 := step_submitted w ev key st h hs
    have h2 := ih (step w ev).1 h1.1
    refine ⟨h2.1, ?_⟩
    intro e he
    simp only [run, List.mem_append] at he
    rcases he with he | he
    · exact h1.2 e he
    · exact h2.2 e he

end GtmFormTracker

namespace GtmFormTracker

/-! ## Start events in a trace -/

theorem isStartOf_of_ne (key : String) (e : Emission) (h : e.formExtraId ≠ key) :
    isStartOf key e = false := by
  simp [isStartOf, h]

theorem isInteractionOf_of_ne (key : String) (e : Emission) (h : e.formExtraId ≠ key) :
    isInteractionOf key e = false := by
  simp [isInteractionOf, h]

theorem isStartOf_start (key : String) : isStartOf key ⟨key, formStartPayload⟩ = true := by
  simp [isStartOf, formStartPayload, getOwn]

theorem isInteractionOf_start (key k : String) :
    isInteractionOf key ⟨k, formStartPayload⟩ = false := by
  simp [isInteractionOf, formStartPayload, getOwn]

theorem isStartOf_interaction (key k fieldName : String) (value count : Prim) :
    isStartOf key ⟨k, interactionPayload fieldName value count⟩ = false := by
  simp [isStartOf, interactionPayload, getOwn]

theorem isStartOf_submit (key k : String) (formData : Props Prim) :
    isStartOf key ⟨k, formSubmitPayload formData⟩ = false := by
  simp [isStartOf, formSubmitPayload, getOwn]

theorem isInteractionOf_submit (key k : String) (formData : Props Prim) :
    isInteractionOf key ⟨k, formSubmitPayload formData⟩ = false := by
  simp [isInteractionOf, formSubmitPayload, getOwn]

theorem startFirst_nil (key : String) : StartFirst key [] := by
  intro pre e post h
  simp at h

theorem startFirst_append (key : String) (tr out : List Emission) (h : StartFirst key tr)
    (hout : ∀ pre e post, out = pre ++ e :: post → isInteractionOf key e = true →
      ∃ s ∈ tr ++ pre, isStartOf key s = true) :
    StartFirst key (tr ++ out) := by
  intro pre e post heq hi
  rcases List.append_eq_append_iff.mp heq with ⟨a, ha1, ha2⟩ | ⟨c, hc1, hc2⟩
  · rw [ha1]
    exact hout a e post ha2 hi
  · cases c with
    | nil =>
      simp only [List.append_nil] at hc1
      simp only [List.nil_append] at hc2
      obtain ⟨s, hs1, hs2⟩ := hout [] e post hc2.symm hi
      rw [List.append_nil, hc1] at hs1
      exact ⟨s, hs1, hs2⟩
    | cons c0 cs =>
      simp only [List.cons_append, List.cons.injEq] at hc2
      rw [← hc2.1] at hc1
      exact h pre e cs hc1 hi

theorem startFirst_append_mem (key : String) (tr out : List Emission) (h : StartFirst key tr)
    (hout : ∀ e ∈ out, isInteractionOf key e = true → ∃ s ∈ tr, isStartOf key s = true) :
    StartFirst key (tr ++ out) := by
  apply startFirst_append key tr out h
  intro pre e post heq hi
  have he : e ∈ out := by
    rw [heq]
    simp
  obtain ⟨s, hs1, hs2⟩ := hout e he hi
  exact ⟨s, List.mem_append_left _ hs1, hs2⟩

theorem startedAt_setOwn_same (s : Store) (k : String) (st : FormState) :
    startedAt (setOwn s k st) k = st.started := by
  simp [startedAt, getOwn_setOwn_same]

theorem startedAt_setOwn_ne (s : Store) (k key : String) (st : FormState) (h : key ≠ k) :
    startedAt (setOwn s k st) key = startedAt s key := by
  simp [startedAt, getOwn_setOwn_ne _ _ _ _ h]

theorem startedAt_of_getOwn (s : Store) (k : String) (st : FormState)
    (h : getOwn s k = some st) : startedAt s k = st.started := by
  simp [startedAt, h]

/-- One step keeps the link between store and trace. -/
theorem step_traceInv (key : String) (w : World) (ev : DomEvent) (tr : List Emission)
    (h : TraceInv key w.formStates tr) :
    TraceInv key (step w ev).1.formStates (tr ++ (step w ev).2) := by
  obtain ⟨hc, hf⟩ := h
  rcases step_cases w ev with ⟨h1, h2⟩ | ⟨k, st, fn, v, h1, h2, h3, h4⟩ | ⟨k, st, f, h1, h2, h3, h4⟩
  · rw [h1, List.append_nil]
    exact ⟨by rw [h2.startedAt, hc], hf⟩
  · rw [h3, h4]
    by_cases hk : key = k
    · subst hk
      rw [startedAt_of_getOwn _ _ _ h1] at hc
      cases hst : st.started with
      | true =>
        rw [hst] at hc
        constructor
        · rw [startedAt_setOwn_same]
          simp [List.countP_cons, isStartOf_interaction, hc]
        · apply startFirst_append_mem key tr _ hf
          intro e _ _
          have hpos : 0 < List.countP (isStartOf key) tr := by
            rw [hc]
            simp
          exact List.countP_pos_iff.mp hpos
      | false =>
        rw [hst] at hc
        constructor
        · rw [startedAt_setOwn_same]
          simp [List.countP_cons, isStartOf_interaction, isStartOf_start, hc]
        · apply startFirst_append key tr _ hf
          intro pre e post heq hi
          cases pre with
          | nil =>
            simp at heq
            rw [← heq.1, isInteractionOf_start] at hi
            cases hi
          | cons p0 ps =>
            simp at heq
            refine ⟨p0, by simp, ?_⟩
            rw [← heq.1]
            exact isStartOf_start key
    · constructor
      · rw [startedAt_setOwn_ne _ _ _ _ hk, List.countP_append, hc]
        have hk2 : k ≠ key := fun h5 => hk h5.symm
        have : List.countP (isStartOf key)
            ((if st.started = true then [] else [⟨k, formStartPayload⟩]) ++
              [⟨k, interactionPayload fn v
                (getProp (bumpCount st.fieldInteractionCounts fn) fn)⟩]) = 0 := by
          rw [List.countP_eq_zero]
          intro e he
          have : e.formExtraId = k := by
            split at he
            · simp at he
              rw [he]
            · simp at he
              rcases he with he | he <;> rw [he]
          rw [isStartOf_of_ne key e (by rw [this]; exact hk2)]
          simp
        rw [this, Nat.add_zero]
      · apply startFirst_append_mem key tr _ hf
        intro e he hi
        have hk2 : k ≠ key := fun h5 => hk h5.symm
        have : e.formExtraId = k := by
          split at he
          · simp at he
            rw [he]
          · simp at he
            rcases he with he | he <;> rw [he]
        rw [isInteractionOf_of_ne key e (by rw [this]; exact hk2)] at hi
        cases hi
  · rw [h3, h4]
    constructor
    · have hs : startedAt (setOwn w.formStates k { st with submitted := true }) key
          = startedAt w.formStates key := by
        by_cases hk : key = k
        · subst hk
          rw [startedAt_setOwn_same, startedAt_of_getOwn _ _ _ h1]
        · exact startedAt_setOwn_ne _ _ _ _ hk
      rw [hs, List.countP_append, hc]
      simp [List.countP_cons, isStartOf_submit]
    · apply startFirst_append_mem key tr _ hf
      intro e he hi
      simp at he
      rw [he, isInteractionOf_submit] at hi
      cases hi

theorem run_traceInv (key : String) (w : World) (evs : List DomEvent) (tr : List Emission)
    (h : TraceInv key w.formStates tr) :
    TraceInv key (run w evs).1.formStates (tr ++ (run w evs).2) := by
  induction evs generalizing w tr with
  | nil => simpa [run] using h
  | cons ev rest ih =>
    have h1 := ih (step w ev).1 (tr ++ (step w ev).2) (step_traceInv key w ev tr h)
    simpa [run, List.append_assoc] using h1

theorem traceInv_initial (key pathname : String) :
    TraceInv key (World.initial pathname).formStates [] :=
  ⟨rfl, startFirst_nil key⟩

end GtmFormTracker


namespace GtmFormTracker

/-! ## The collected form data -/

theorem collectFormData_eq (form : Node) :
    collectFormData form = (findFields form).foldl collectStep [] := rfl

theorem getOwn_setProp_ne (o : Props Prim) (k key : String) (v : Prim) (h : key ≠ k) :
    getOwn (setProp o k v) key = getOwn o key := by
  unfold setProp
  split
  · rfl
  · exact getOwn_setOwn_ne o k key v h

theorem getOwn_setProp_same (o : Props Prim) (k : String) (v : Prim) (h : k ≠ "__proto__") :
    getOwn (setProp o k v) k = some v := by
  unfold setProp
  rw [if_neg h]
  exact getOwn_setOwn_same o k v

theorem getOwn_collect (fs : List Elem) (acc : Props Prim) (name : String)
    (h : name ≠ "__proto__") :
    getOwn (fs.foldl collectStep acc) name =
      match (fs.filter (fun f => nameOf f = some name)).getLast? with
      | some f => some (fieldValue f)
      | none => getOwn acc name := by
  induction fs generalizing acc with
  | nil => rfl
  | cons f rest ih =>
    rw [List.foldl_cons, ih]
    by_cases hf : nameOf f = some name
    · have e : (f :: rest).filter (fun f => nameOf f = some name)
          = f :: rest.filter (fun f => nameOf f = some name) := by
        simp [List.filter_cons, hf]
      rw [e, List.getLast?_cons]
      cases hl : (rest.filter (fun f => nameOf f = some name)).getLast? with
      | some g => rfl
      | none =>
        simp only [Option.getD_none, collectStep, hf]
        exact getOwn_setProp_same acc name _ h
    · have e : (f :: rest).filter (fun f => nameOf f = some name)
          = rest.filter (fun f => nameOf f = some name) := by
        simp [List.filter_cons, hf]
      rw [e]
      cases hl : (rest.filter (fun f => nameOf f = some name)).getLast? with
      | some g => rfl
      | none =>
        simp only
        unfold collectStep
        cases hn : nameOf f with
        | none => rfl
        | some n =>
          simp only
          apply getOwn_setProp_ne
          intro h2
          apply hf
          rw [hn, h2]

theorem getOwn_collect_proto (fs : List Elem) (acc : Props Prim)
    (h : getOwn acc "__proto__" = none) :
    getOwn (fs.foldl collectStep acc) "__proto__" = none := by
  induction fs generalizing acc with
  | nil => exact h
  | cons f rest ih =>
    rw [List.foldl_cons]
    apply ih
    unfold collectStep
    cases hn : nameOf f with
    | none => exact h
    | some n =>
      simp only
      by_cases h2 : n = "__proto__"
      · subst h2
        simp only [setProp, if_true]
        exact h
      · rw [getOwn_setProp_ne _ _ _ _ (fun h3 => h2 h3.symm)]
        exact h

/-- The data of a `form_submit` event, key by key: a name other than
`__proto__` holds the value of the last field of that name in document order,
and is absent when no field has the name; `__proto__` is never a key. -/
theorem collectFormData_lookup (form : Node) (name : String) :
    (name ≠ "__proto__" →
      getOwn (collectFormData form) name =
        ((findFields form).filter (fun f => nameOf f = some name)).getLast?.map fieldValue) ∧
    getOwn (collectFormData form) "__proto__" = none := by
  constructor
  · intro h
    rw [collectFormData_eq, getOwn_collect _ _ _ h]
    cases ((findFields form).filter (fun f => nameOf f = some name)).getLast? <;> rfl
  · rw [collectFormData_eq]
    exact getOwn_collect_proto _ _ rfl

end GtmFormTracker

namespace GtmFormTracker

/-! ## Counters of ordinary field names -/

theorem oneTo_succ (k : Nat) : oneTo (k + 1) = oneTo k ++ [some (.prim (.num (k + 1)))] := by
  simp [oneTo, List.range_succ]

theorem countsOf_append (key fieldName : String) (a b : List Emission) :
    countsOf key fieldName (a ++ b) = countsOf key fieldName a ++ countsOf key fieldName b := by
  simp [countsOf]

theorem countsOf_nil_of_forall (key fieldName : String) (out : List Emission)
    (h : ∀ e ∈ out, isInteractionOn key fieldName e = false) :
    countsOf key fieldName out = [] := by
  unfold countsOf
  rw [List.map_eq_nil_iff, List.filter_eq_nil_iff]
  intro e he
  rw [h e he]
  simp

theorem isInteractionOn_of_ne (key fieldName : String) (e : Emission)
    (h : e.formExtraId ≠ key) : isInteractionOn key fieldName e = false := by
  simp [isInteractionOn, isInteractionOf_of_ne key e h]

theorem isInteractionOn_start (key fieldName k : String) :
    isInteractionOn key fieldName ⟨k, formStartPayload⟩ = false := by
  simp [isInteractionOn, isInteractionOf_start]

theorem isInteractionOn_submit (key fieldName k : String) (formData : Props Prim) :
    isInteractionOn key fieldName ⟨k, formSubmitPayload formData⟩ = false := by
  simp [isInteractionOn, isInteractionOf_submit]

theorem isInteractionOn_same (key fieldName : String) (value count : Prim) :
    isInteractionOn key fieldName ⟨key, interactionPayload fieldName value count⟩ = true := by
  simp [isInteractionOn, isInteractionOf, interactionPayload, getOwn]

theorem isInteractionOn_other_field (key fieldName fn k : String) (value count : Prim)
    (h : fn ≠ fieldName) :
    isInteractionOn key fieldName ⟨k, interactionPayload fn value count⟩ = false := by
  simp [isInteractionOn, interactionPayload, getOwn, h]

theorem countsOf_interaction_same (key fieldName : String) (value count : Prim) :
    countsOf key fieldName [⟨key, interactionPayload fieldName value count⟩]
      = [some (.prim count)] := by
  have h := isInteractionOn_same key fieldName value count
  unfold countsOf
  rw [List.filter_cons, if_pos h]
  simp [interactionPayload, getOwn]

theorem countsOf_start_cons (key fieldName k : String) (rest : List Emission) :
    countsOf key fieldName (⟨k, formStartPayload⟩ :: rest) = countsOf key fieldName rest := by
  have h := isInteractionOn_start key fieldName k
  unfold countsOf
  rw [List.filter_cons, h]
  simp

theorem not_proto_of_not_mem (fieldName : String) (h : fieldName ∉ objectPrototypeKeys) :
    fieldName ≠ "__proto__" := by
  intro h2
  apply h
  rw [h2]
  decide

theorem getProp_bumpCount (counts : Props Prim) (fieldName : String) (k : Nat)
    (h : fieldName ∉ objectPrototypeKeys)
    (hc : getOwn counts fieldName = (if k = 0 then none else some (.num k))) :
    getOwn (bumpCount counts fieldName) fieldName = some (.num (k + 1)) ∧
      getProp (bumpCount counts fieldName) fieldName = .num (k + 1) := by
  have hp := not_proto_of_not_mem fieldName h
  have hv : jsAddOne (jsOr (getProp counts fieldName) (.num 0)) = .num (k + 1) := by
    unfold getProp
    by_cases hk : k = 0
    · subst hk
      rw [hc]
      simp [h, jsOr, truthy, jsAddOne]
    · rw [hc]
      simp [hk, jsOr, truthy, jsAddOne]
  have h1 : getOwn (bumpCount counts fieldName) fieldName = some (.num (k + 1)) := by
    unfold bumpCount
    rw [hv]
    exact getOwn_setProp_same _ _ _ hp
  refine ⟨h1, ?_⟩
  unfold getProp
  rw [h1]

theorem ownCountAt_storeExt {s s' : Store} (h : StoreExt s s') (key fieldName : String) :
    ownCountAt s' key fieldName = ownCountAt s key fieldName := by
  unfold ownCountAt
  rcases h key with a | ⟨a1, a2⟩
  · rw [a]
  · rw [a1, a2]
    rfl

theorem ownCountAt_setOwn_ne (s : Store) (k key fieldName : String) (st : FormState)
    (h : key ≠ k) : ownCountAt (setOwn s k st) key fieldName = ownCountAt s key fieldName := by
  simp [ownCountAt, getOwn_setOwn_ne _ _ _ _ h]

theorem ownCountAt_setOwn_same (s : Store) (k fieldName : String) (st : FormState) :
    ownCountAt (setOwn s k st) k fieldName = getOwn st.fieldInteractionCounts fieldName := by
  simp [ownCountAt, getOwn_setOwn_same]

theorem ownCountAt_of_getOwn (s : Store) (k fieldName : String) (st : FormState)
    (h : getOwn s k = some st) :
    ownCountAt s k fieldName = getOwn st.fieldInteractionCounts fieldName := by
  simp [ownCountAt, h]

/-- One step keeps the link between the own counter and the emitted counts. -/
theorem step_countInv (key fieldName : String) (hf : fieldName ∉ objectPrototypeKeys)
    (w : World) (ev : DomEvent) (tr : List Emission)
    (h : CountInv key fieldName w.formStates tr) :
    CountInv key fieldName (step w ev).1.formStates (tr ++ (step w ev).2) := by
  obtain ⟨n, hn1, hn2⟩ := h
  unfold CountInv
  rcases step_cases w ev with ⟨h1, h2⟩ | ⟨k, st, fn, v, h1, h2, h3, h4⟩ | ⟨k, st, f, h1, h2, h3, h4⟩
  · rw [h1, List.append_nil]
    exact ⟨n, hn1, by rw [ownCountAt_storeExt h2, hn2]⟩
  · rw [h3, h4]
    by_cases hk : key = k
    · subst hk
      rw [ownCountAt_of_getOwn _ _ _ _ h1] at hn2
      rw [ownCountAt_setOwn_same]
      by_cases hfn : fn = fieldName
      · subst hfn
        obtain ⟨g1, g2⟩ := getProp_bumpCount st.fieldInteractionCounts fn n hf hn2
        refine ⟨n + 1, ?_, ?_⟩
        · rw [countsOf_append, oneTo_succ, hn1, g2]
          congr 1
          cases st.started
          · simp only [Bool.false_eq_true, if_false, List.singleton_append]
            rw [countsOf_start_cons, countsOf_interaction_same]
          · simp only [if_true, List.nil_append]
            rw [countsOf_interaction_same]
        · simpa using g1
      · refine ⟨n, ?_, ?_⟩
        · rw [countsOf_append, hn1, countsOf_nil_of_forall, List.append_nil]
          intro e he
          cases hst : st.started with
          | true =>
            simp [hst] at he
            rw [he]
            exact isInteractionOn_other_field _ _ _ _ _ _ hfn
          | false =>
            simp [hst] at he
            rcases he with he | he
            · rw [he]
              exact isInteractionOn_start _ _ _
            · rw [he]
              exact isInteractionOn_other_field _ _ _ _ _ _ hfn
        · simp only
          unfold bumpCount
          rw [getOwn_setProp_ne _ _ _ _ (fun h5 => hfn h5.symm)]
          exact hn2
    · refine ⟨n, ?_, ?_⟩
      · rw [countsOf_append, hn1, countsOf_nil_of_forall, List.append_nil]
        intro e he
        apply isInteractionOn_of_ne
        have : e.formExtraId = k := by
          split at he
          · simp at he
            rw [he]
          · simp at he
            rcases he with he | he <;> rw [he]
        rw [this]
        exact fun h5 => hk h5.symm
      · rw [ownCountAt_setOwn_ne _ _ _ _ _ hk]
        exact hn2
  · rw [h3, h4]
    refine ⟨n, ?_, ?_⟩
    · rw [countsOf_append, hn1, countsOf_nil_of_forall, List.append_nil]
      intro e he
      simp at he
      rw [he]
      exact isInteractionOn_submit _ _ _ _
    · by_cases hk : key = k
      · subst hk
        rw [ownCountAt_setOwn_same]
        rw [ownCountAt_of_getOwn _ _ _ _ h1] at hn2
        exact hn2
      · rw [ownCountAt_setOwn_ne _ _ _ _ _ hk]
        exact hn2

theorem run_countInv (key fieldName : String) (hf : fieldName ∉ objectPrototypeKeys)
    (w : World) (evs : List DomEvent) (tr : List Emission)
    (h : CountInv key fieldName w.formStates tr) :
    CountInv key fieldName (run w evs).1.formStates (tr ++ (run w evs).2) := by
  induction evs generalizing w tr with
  | nil => simpa [run] using h
  | cons ev rest ih =>
    have h1 := ih (step w ev).1 (tr ++ (step w ev).2) (step_countInv key fieldName hf w ev tr h)
    simpa [run, List.append_assoc] using h1

/-- For a field name that is no member name of `Object.prototype`, the counts
of the interaction events of an identity and the field are `1, 2, ..., k` in
emission order, over every sequence of events from the start of the script. -/
theorem interaction_counts_ordinary (pathname : String) (evs : List DomEvent)
    (key fieldName : String) (hf : fieldName ∉ objectPrototypeKeys) :
    countsOf key fieldName (run (World.initial pathname) evs).2 =
      oneTo (countsOf key fieldName (run (World.initial pathname) evs).2).length := by
  have h := run_countInv key fieldName hf (World.initial pathname) evs []
    ⟨0, rfl, rfl⟩
  rw [List.nil_append] at h
  obtain ⟨n, hn, _⟩ := h
  rw [hn]
  simp [oneTo]

end GtmFormTracker

namespace GtmFormTracker

/-! ## Arrays that refuse a push -/

/-- On an array with the built-in `push` that is not extensible, or whose
`length` is not writable, `sendEvent` logs the record, throws a `TypeError`
and leaves the array as it was. -/
theorem sendEvent_blocked_array (pathname now : String) (data : Payload) (a : ArrayObj)
    (hp : a.push = .builtin) (hl : a.items.length < maxArrayLength)
    (h : a.extensible = false ∨ a.lengthWritable = false) :
    (sendEvent pathname now data (.array a)).thrown = some .typeError ∧
    (sendEvent pathname now data (.array a)).dataLayer.items = some a.items ∧
    (sendEvent pathname now data (.array a)).console
      = [.log "Data sent to GTM:" (eventData pathname now data)] := by
  have hl2 : ¬ a.items.length ≥ maxArrayLength := by omega
  have hpush : arrayPush a (eventData pathname now data) = (a, some .typeError) := by
    rcases h with h | h
    · simp [arrayPush, hp, h]
    · cases he : a.extensible <;> simp [arrayPush, hp, h, he, hl2]
  simp only [sendEvent, hpush, DataLayer.items]
  exact ⟨trivial, trivial, trivial⟩

end GtmFormTracker

namespace GtmFormTracker

/-! ## Path resolver -/

/-- C8: `getCurrentPath` returns a pathname of length at most one unchanged,
removes exactly one trailing slash from a longer pathname that ends with a
slash, and returns a longer pathname that does not end with a slash
unchanged. -/
theorem getCurrentPath_contract (p : String) :
    (p.length ≤ 1 → getCurrentPath p = p) ∧
    (1 < p.length → ∀ q : String, p = q ++ "/" → getCurrentPath p = q) ∧
    (1 < p.length → (¬ ∃ q : String, p = q ++ "/") → getCurrentPath p = p) ∧
    getCurrentPath "/" = "/" ∧ getCurrentPath "" = "" ∧
    getCurrentPath "/contact-us/" = "/contact-us" ∧ getCurrentPath "/a//" = "/a/" := by
  refine ⟨getCurrentPath_short p, ?_, fun _ h => getCurrentPath_no_slash p h, ?_, ?_, ?_, ?_⟩
  · intro h q hq
    subst hq
    exact getCurrentPath_append_slash q h
  all_goals decide

/-! ## Form identity -/

/-- C7, as stated, fails: on the pathname `/contact-us/` the identity of the
form with id `contact` is not the one built from the normalised page path, and
the pathnames `/contact-us/` and `/contact-us`, which have the same normalised
path, give different identities. -/
theorem getFormExtraId_not_normalized :
    getFormExtraId "/contact-us/" (some "contact")
        ≠ slug (getCurrentPath "/contact-us/") ++ "-" ++ "contact" ∧
    getCurrentPath "/contact-us/" = getCurrentPath "/contact-us" ∧
    getFormExtraId "/contact-us/" (some "contact")
        ≠ getFormExtraId "/contact-us" (some "contact") := by
  decide

/-- C7, amended: the identity is built from the raw pathname, as the slug of
the pathname, a hyphen, and the id attribute of the form or the empty string.
It agrees with the identity built from the normalised page path exactly on the
pathnames the path resolver leaves unchanged; on a pathname from which the
resolver strips a trailing slash it carries one more hyphen. -/
theorem getFormExtraId_raw_path (p : String) (idAttr : Option String) :
    getFormExtraId p idAttr = slug p ++ "-" ++ idAttr.getD "" ∧
    ((p.length ≤ 1 ∨ ¬ ∃ q : String, p = q ++ "/") →
      getFormExtraId p idAttr = slug (getCurrentPath p) ++ "-" ++ idAttr.getD "") ∧
    (1 < p.length → (∃ q : String, p = q ++ "/") →
      getFormExtraId p idAttr = slug (getCurrentPath p) ++ "-" ++ "-" ++ idAttr.getD "") := by
  have h0 : getFormExtraId p idAttr = slug p ++ "-" ++ idAttr.getD "" := by
    unfold getFormExtraId slug
    rw [formIdOrEmpty_eq]
  refine ⟨h0, ?_, ?_⟩
  · intro h
    rcases h with h | h
    · rw [getCurrentPath_short p h]
      exact h0
    · rw [getCurrentPath_no_slash p h]
      exact h0
  · rintro h ⟨q, rfl⟩
    rw [h0, getCurrentPath_append_slash q h, slug_append_slash q h]

/-- C9: two different (pathname, form id) pairs with one identity; and on one
page a form without an id attribute and a form with an empty one have one
identity, so that after both are scanned the store has one key and the second
form has no submit listener and no change listener on its field. -/
theorem getFormExtraId_collision :
    (("/a/b", some "c") : String × Option String) ≠ ("/a", some "b-c") ∧
    getFormExtraId "/a/b" (some "c") = getFormExtraId "/a" (some "b-c") ∧
    (none : Option String) ≠ some "" ∧
    getFormExtraId "/a" none = getFormExtraId "/a" (some "") ∧
    ownKeys (run (World.initial "/a")
      [.scan (Example.emailForm 1 none 2), .scan (Example.emailForm 5 (some "") 6)]).1.formStates
      = ["a-"] ∧
    listenerOf (run (World.initial "/a")
      [.scan (Example.emailForm 1 none 2),
       .scan (Example.emailForm 5 (some "") 6)]).1.submitListeners 5 = none ∧
    listenerOf (run (World.initial "/a")
      [.scan (Example.emailForm 1 none 2),
       .scan (Example.emailForm 5 (some "") 6)]).1.changeListeners 6 = none := by
  decide

end GtmFormTracker

namespace GtmFormTracker

/-! ## Form tracker -/

/-- C6: `trackForm` on a form whose identity already has a state returns the
page state unchanged (store, change listeners and submit listeners) and makes
no `sendEvent` call; on an unseen identity it adds exactly one entry, the
initial state under that identity, and changes no other entry; calling it a
second time changes nothing. -/
theorem trackForm_idempotent (w : World) (form : Node) :
    (∀ st, getOwn w.formStates (getFormExtraId w.pathname form.elem.idAttr) = some st →
      trackForm w form = w ∧ step w (.scan form) = (w, [])) ∧
    (getOwn w.formStates (getFormExtraId w.pathname form.elem.idAttr) = none →
      getOwn (trackForm w form).formStates (getFormExtraId w.pathname form.elem.idAttr)
        = some { submitted := false, started := false, fieldInteractionCounts := [] } ∧
      ownKeys (trackForm w form).formStates
        = ownKeys w.formStates ++ [getFormExtraId w.pathname form.elem.idAttr] ∧
      ∀ k, k ≠ getFormExtraId w.pathname form.elem.idAttr →
        getOwn (trackForm w form).formStates k = getOwn w.formStates k) ∧
    trackForm (trackForm w form) form = trackForm w form := by
  refine ⟨?_, ?_, ?_⟩
  · intro st h
    have h1 := trackForm_of_tracked w form st h
    refine ⟨h1, ?_⟩
    simp only [step, h1]
  · intro h
    rw [trackForm_formStates]
    simp only [h]
    exact ⟨getOwn_setOwn_same _ _ _, ownKeys_setOwn_of_none _ _ _ h,
      fun k hk => getOwn_setOwn_ne _ _ _ _ hk⟩
  · cases h : getOwn w.formStates (getFormExtraId w.pathname form.elem.idAttr) with
    | some st => rw [trackForm_of_tracked w form st h, trackForm_of_tracked w form st h]
    | none =>
      apply trackForm_of_tracked (trackForm w form) form FormState.initial
      rw [trackForm_pathname, trackForm_formStates]
      simp only [h]
      exact getOwn_setOwn_same _ _ _

/-! ## Event emitter -/

/-- C4, as stated, fails: on the frozen empty array, which is an array,
`sendEvent` throws a `TypeError` and the queue stays empty instead of gaining
the record. -/
theorem sendEvent_throws_on_frozen_array :
    (sendEvent "/contact-us/" "2025-01-01T00:00:00.000Z" formStartPayload
        (.array Example.frozenQueue)).thrown = some .typeError ∧
    (sendEvent "/contact-us/" "2025-01-01T00:00:00.000Z" formStartPayload
        (.array Example.frozenQueue)).dataLayer.items = some [] ∧
    (sendEvent "/contact-us/" "2025-01-01T00:00:00.000Z" formStartPayload
        (.array Example.frozenQueue)).dataLayer.items
      ≠ some (Example.frozenQueue.items ++
          [.record (eventData "/contact-us/" "2025-01-01T00:00:00.000Z" formStartPayload)]) := by
  decide

/-- C4, amended: on an array that is extensible, has a writable `length` below
the largest array length and the built-in `push`, `sendEvent` throws nothing
and appends exactly one record, keeping the slots before it and everything
else of the array; the record has every key of the payload with the value of
the payload, `path` and `timestamp` with the computed values when the payload
has no such key, and no other key; on an absent or non-array queue `sendEvent`
throws nothing, returns the queue as it was and logs the warning. -/
theorem sendEvent_contract (pathname now : String) (data : Payload) (dataLayer : DataLayer)
    (hdata : (ownKeys data).Nodup) :
    (∀ a : ArrayObj, dataLayer = .array a → a.push = .builtin → a.extensible = true →
      a.lengthWritable = true → a.items.length < maxArrayLength →
      (sendEvent pathname now data dataLayer).thrown = none ∧
      (sendEvent pathname now data dataLayer).dataLayer
        = .array { a with items := a.items ++ [.record (eventData pathname now data)] }) ∧
    (∀ key, getOwn (eventData pathname now data) key =
      match getOwn data key with
      | some v => some v
      | none =>
        if key = "path" then some (.prim (.str (getCurrentPath pathname)))
        else if key = "timestamp" then some (.prim (.str now))
        else none) ∧
    ((∀ a, dataLayer ≠ .array a) →
      (sendEvent pathname now data dataLayer).thrown = none ∧
      (sendEvent pathname now data dataLayer).dataLayer = dataLayer ∧
      (sendEvent pathname now data dataLayer).console = [.warn "GTM is not loaded"]) := by
  refine ⟨?_, ?_, ?_⟩
  · intro a h hp he hw hl
    subst h
    have hl2 : ¬ a.items.length ≥ maxArrayLength := by omega
    have hpush : arrayPush a (eventData pathname now data)
        = ({ a with items := a.items ++ [.record (eventData pathname now data)] }, none) := by
      simp [arrayPush, hp, he, hw, hl2]
    simp only [sendEvent, hpush]
    exact ⟨trivial, trivial⟩
  · intro key
    unfold eventData
    rw [getOwn_spread data _ key hdata]
    cases getOwn data key with
    | some v => rfl
    | none =>
      by_cases h1 : key = "path"
      · subst h1
        rfl
      · by_cases h2 : key = "timestamp"
        · subst h2
          rfl
        · have h1' : ¬ "path" = key := fun h => h1 h.symm
          have h2' : ¬ "timestamp" = key := fun h => h2 h.symm
          simp [getOwn, h1, h2, h1', h2']
  · intro h
    cases dataLayer with
    | absent => exact ⟨rfl, rfl, rfl⟩
    | notArray v => exact ⟨rfl, rfl, rfl⟩
    | array a => exact absurd rfl (h a)

/-- A witness for C4: a `form_start` payload sent to an ordinary array with
one slot. -/
theorem sendEvent_contract_witness :
    (sendEvent "/contact-us/" "2025-01-01T00:00:00.000Z" formStartPayload
        (.array (Example.ordinaryQueue [.other (.ref 0)]))).thrown = none ∧
    (sendEvent "/contact-us/" "2025-01-01T00:00:00.000Z" formStartPayload
        (.array (Example.ordinaryQueue [.other (.ref 0)]))).dataLayer
      = .array (Example.ordinaryQueue [.other (.ref 0),
          .record [("path", .prim (.str "/contact-us")),
            ("timestamp", .prim (.str "2025-01-01T00:00:00.000Z")),
            ("event", .prim (.str "form_start"))]]) :=
  (sendEvent_contract "/contact-us/" "2025-01-01T00:00:00.000Z" formStartPayload
    (.array (Example.ordinaryQueue [.other (.ref 0)])) (by decide)).1 _ rfl rfl rfl rfl
    (by decide)

end GtmFormTracker

namespace GtmFormTracker

/-! ## Submission is terminal -/

/-- C3: the first submit event on a tracked, unsubmitted form emits exactly one
`form_submit` and sets `submitted`; after it, whatever events follow (scans,
changes, submits, mutations), no `sendEvent` call is made for that identity and
its tracking state stays as the submit handler left it. -/
theorem submitted_is_terminal (w : World) (form : Node) (key : String) (st : FormState)
    (hl : listenerOf w.submitListeners form.elem.nid = some key)
    (h : getOwn w.formStates key = some st) (hs : st.submitted = false)
    (evs : List DomEvent) :
    (step w (.submit form)).2 = [⟨key, formSubmitPayload (collectFormData form)⟩] ∧
    getOwn (step w (.submit form)).1.formStates key = some { st with submitted := true } ∧
    (run (step w (.submit form)).1 evs).2.filter (fun e => e.formExtraId = key) = [] ∧
    getOwn (run (step w (.submit form)).1 evs).1.formStates key
      = some { st with submitted := true } := by
  have h1 : step w (.submit form) =
      ({ w with formStates := setOwn w.formStates key { st with submitted := true } },
        [⟨key, formSubmitPayload (collectFormData form)⟩]) := by
    simp only [step, hl, submitHandler_first _ _ _ st h hs]
  have h2 : getOwn (step w (.submit form)).1.formStates key
      = some { st with submitted := true } := by
    rw [h1]
    exact getOwn_setOwn_same _ _ _
  have h3 := run_submitted (step w (.submit form)).1 evs key _ h2 rfl
  refine ⟨by rw [h1], h2, ?_, h3.1⟩
  rw [List.filter_eq_nil_iff]
  intro e he
  simpa using h3.2 e he

end GtmFormTracker

namespace GtmFormTracker

/-! ## One start, and first -/

/-- C2: over any sequence of scans, change events, submit events and
mutations from the start of the script, the trace has at most one `form_start`
for an identity, and every `form_field_interaction` of the identity has the
`form_start` of the identity before it; an interaction on a tracked,
unsubmitted form emits `form_start` followed by the interaction event when the
form has not started and the interaction event alone when it has. -/
theorem form_start_once_and_first (pathname : String) (evs : List DomEvent) (key : String) :
    List.countP (isStartOf key) (run (World.initial pathname) evs).2 ≤ 1 ∧
    (∀ pre e post, (run (World.initial pathname) evs).2 = pre ++ e :: post →
      isInteractionOf key e = true → ∃ s ∈ pre, isStartOf key s = true) ∧
    (∀ (fs : Store) (form : Option Elem) (fieldName : String) (value : Prim) (st : FormState),
      getOwn fs (getFormExtraId pathname (form.bind Elem.idAttr)) = some st →
      st.submitted = false →
      (handleInteraction pathname fs form fieldName value).2.map Emission.payload =
        (if st.started then [] else [formStartPayload]) ++
          [interactionPayload fieldName (jsOr value (.str ""))
            (getProp (bumpCount st.fieldInteractionCounts fieldName) fieldName)]) := by
  have h := run_traceInv key (World.initial pathname) evs [] (traceInv_initial key pathname)
  rw [List.nil_append] at h
  refine ⟨?_, h.2, ?_⟩
  · rw [h.1]
    split <;> simp
  · intro fs form fieldName value st hg hs
    cases hst : st.started with
    | false =>
      rw [handleInteraction_first pathname fs form fieldName value st hg hs hst]
      rfl
    | true =>
      rw [handleInteraction_later pathname fs form fieldName value st hg hs hst]
      rfl

end GtmFormTracker

namespace GtmFormTracker

/-- A witness for C3: in the scenario of the specification the form is
submitted with `c@d.com`; a later edit and a second submit emit nothing. -/
theorem submitted_is_terminal_witness :
    (step Example.contactPage (.submit (Example.contactForm "c@d.com"))).2
      = [⟨"contact-us--contact", formSubmitPayload [("email", .str "c@d.com")]⟩] ∧
    (run (step Example.contactPage (.submit (Example.contactForm "c@d.com"))).1
        [.change (Example.textInput 2 "email" "x"),
         .submit (Example.contactForm "x")]).2.filter
      (fun e => e.formExtraId = "contact-us--contact") = [] :=
  have h := submitted_is_terminal Example.contactPage (Example.contactForm "c@d.com")
    "contact-us--contact" FormState.initial (by decide) (by decide) rfl
    [.change (Example.textInput 2 "email" "x"), .submit (Example.contactForm "x")]
  ⟨h.1, h.2.2.1⟩

end GtmFormTracker

namespace GtmFormTracker

/-! ## Field names that meet `Object.prototype` -/

/-- C1: on a tracked form with a field named `constructor`, the first two
changes of the field emit interaction events whose `count` is not `1` and `2`:
the counter object inherits a `constructor` member, so `|| 0` keeps it and
`+ 1` concatenates. -/
theorem interaction_count_constructor :
    (run (World.initial "/signup") [.scan (Example.signupForm "constructor" ""),
        .change (Example.textInput 2 "constructor" "a"),
        .change (Example.textInput 2 "constructor" "b")]).2
      = [⟨"signup-signup", formStartPayload⟩,
         ⟨"signup-signup", interactionPayload "constructor" (.str "a")
            (.str (builtinToString "constructor" ++ "1"))⟩,
         ⟨"signup-signup", interactionPayload "constructor" (.str "b")
            (.str (builtinToString "constructor" ++ "11"))⟩] ∧
    Prim.str (builtinToString "constructor" ++ "1") ≠ .num 1 ∧
    Prim.str (builtinToString "constructor" ++ "11") ≠ .num 2 := by
  decide

/-- C5: on the first submit of a tracked form whose only field is named
`__proto__`, the `data` of the `form_submit` event has no key, while the set of
names of the named fields is not empty. -/
theorem form_submit_data_proto :
    (run (World.initial "/signup") [.scan (Example.signupForm "__proto__" "x"),
        .submit (Example.signupForm "__proto__" "x")]).2
      = [⟨"signup-signup", formSubmitPayload []⟩] ∧
    ownKeys (collectFormData (Example.signupForm "__proto__" "x")) = [] ∧
    (findFields (Example.signupForm "__proto__" "x")).filterMap nameOf = ["__proto__"] := by
  decide

/-! ## Mutation watcher -/

/-- C10: an input appended as a direct child of a tracked form is the added
node itself; the watcher binds no listener to it and its next change emits
nothing, while the same input added inside a wrapper element is bound to the
form. -/
theorem added_field_itself_untracked :
    listenerOf (run Example.contactPage
        [.added [(some (Example.formElem 1 "contact"),
          .node (Example.textInput 3 "phone" "") [])]]).1.changeListeners 3 = none ∧
    (run Example.contactPage
        [.added [(some (Example.formElem 1 "contact"),
          .node (Example.textInput 3 "phone" "") [])],
         .change (Example.textInput 3 "phone" "555")]).2 = [] ∧
    listenerOf (run Example.contactPage
        [.added [(some (Example.formElem 1 "contact"),
          .node (Example.divElem 4) [.node (Example.textInput 3 "phone" "") []])]]).1.changeListeners 3
      = some { form := some (Example.formElem 1 "contact"), fieldName := "phone" } ∧
    (run Example.contactPage
        [.added [(some (Example.formElem 1 "contact"),
          .node (Example.divElem 4) [.node (Example.textInput 3 "phone" "") []])],
         .change (Example.textInput 3 "phone" "555")]).2
      = [⟨"contact-us--contact", formStartPayload⟩,
         ⟨"contact-us--contact", interactionPayload "phone" (.str "555") (.num 1)⟩] := by
  decide

end GtmFormTracker
